import Mathlib

/-!
Verification of the vue-passthrough merge engine (`src/pt.ts`).

The engine's dynamic JavaScript values are shallowly embedded as the
inductive `JVal`; JavaScript objects become association lists that keep
insertion order, mirroring the ordered string-keyed maps of the source.
All functions of the source module (`processTheme`, `getMergeStrategy`,
`applyTailwindMerge`, `mergeAttrs`, `mergePt`, `extractNestedPt`,
`ptAttrs`, `ptMark`, `ptFor`) are translated here; the external
collaborators (`twMerge` from tailwind-merge, Vue's `mergeProps`) and the
two utility functions whose implementation is not among the sources
(`normalizeValue`, `toClassObject`) are modelled from the specification,
as marked in their doc comments.
-/

namespace VuePt

/-- A dynamic JavaScript value as used by the pass-through engine:
a string, a boolean, or a plain object (an ordered string-keyed map). -/
inductive JVal : Type where
  | str : String → JVal
  | bool : Bool → JVal
  | obj : List (String × JVal) → JVal

/-- A plain JavaScript object: entries in insertion order. -/
abbrev Obj := List (String × JVal)

/-- The resolved theme: a map from element name to attribute map
(`Record<string, Record<string, any>>` in the source). -/
abbrev TMap := List (String × Obj)

/-- Property lookup on an ordered string-keyed map. -/
def aGet {α : Type} : List (String × α) → String → Option α
  | [], _ => none
  | (k', v) :: rest, k => if k' = k then some v else aGet rest k

/-- `key in m` for an ordered string-keyed map. -/
def aHas {α : Type} (m : List (String × α)) (k : String) : Bool :=
  (aGet m k).isSome

/-- Property assignment `m[k] = v`: overwrites in place, appends if new. -/
def aSet {α : Type} : List (String × α) → String → α → List (String × α)
  | [], k, v => [(k, v)]
  | (k', v') :: rest, k, v =>
      if k' = k then (k', v) :: rest else (k', v') :: aSet rest k v

/-- Rest-destructuring `const { k, ...rest } = m`: drops the key `k`. -/
def aRemove {α : Type} (m : List (String × α)) (k : String) : List (String × α) :=
  m.filter (fun kv => kv.1 ≠ k)

/-- Object spread `{...a, ...b}`: `b`'s entries assigned on top of `a`. -/
def aSpread {α : Type} (a b : List (String × α)) : List (String × α) :=
  b.foldl (fun acc kv => aSet acc kv.1 kv.2) a

/-- JavaScript truthiness for the values of this model:
the empty string and `false` are falsy, every object is truthy. -/
def jsTruthy : JVal → Bool
  | .str s => s ≠ ""
  | .bool b => b
  | .obj _ => true

/-- Truthiness of a possibly-absent value (`undefined` is falsy). -/
def jsTruthyOpt : Option JVal → Bool
  | some v => jsTruthy v
  | none => false

/-- JavaScript string coercion, used where the source passes a value to a
string-consuming collaborator. -/
def jsToString : JVal → String
  | .str s => s
  | .bool b => if b then "true" else "false"
  | .obj _ => "[object Object]"

/-- `isString` from the repository's utils module. -/
def isString : JVal → Bool
  | .str _ => true
  | _ => false

/-- `isObject` from the repository's utils module: true exactly for plain
objects (the model has no arrays, dates or other exotic objects). -/
def isObject : JVal → Bool
  | .obj _ => true
  | _ => false

/-- `isEmpty` from the repository's utils module: an object with no own
enumerable properties. -/
def isEmpty (m : Obj) : Bool := m.isEmpty

/-- Split a character list at spaces (tail chunk included). -/
def splitSpaces : List Char → List Char → List String
  | [], acc => [String.mk acc.reverse]
  | c :: rest, acc =>
      if c = ' ' then String.mk acc.reverse :: splitSpaces rest []
      else splitSpaces rest (c :: acc)

/-- Split a class string into its space-separated tokens. -/
def tokens (s : String) : List String :=
  (splitSpaces s.toList []).filter (fun t => t ≠ "")

/-- Join class tokens back into a single class string. -/
def joinTokens (l : List String) : String := String.intercalate " " l

/-- Prefix test on strings (by character lists). -/
def strBegins (p t : String) : Bool := p.toList.isPrefixOf t.toList

/-- Modelled from the spec: the pluggable class conflict resolver (§6)
classifies each token into a mutually-exclusive utility family; tokens it
does not recognise never conflict with anything. The classification below
covers the utility families exercised in this development. -/
def twFamily (t : String) : Option String :=
  if t = "grid" ∨ t = "flex" ∨ t = "block" ∨ t = "inline" ∨ t = "hidden" then
    some "display"
  else if t = "flex-row" ∨ t = "flex-col" then some "flex-direction"
  else if t = "border-red-500" ∨ t = "border-blue-500" ∨ t = "border-purple-500" then
    some "border-color"
  else if t = "border" ∨ t = "border-0" ∨ t = "border-1" ∨ t = "border-2" ∨
          t = "border-4" ∨ t = "border-8" then some "border-width"
  else if strBegins "bg-" t then some "background-color"
  else if strBegins "gap-" t then some "gap"
  else if strBegins "px-" t then some "padding-x"
  else if strBegins "py-" t then some "padding-y"
  else if strBegins "p-" t then some "padding"
  else if strBegins "mt-" t then some "margin-top"
  else if t = "text-xs" ∨ t = "text-sm" ∨ t = "text-base" ∨ t = "text-lg" ∨
          t = "text-xl" then some "font-size"
  else if strBegins "text-" t then some "text-color"
  else if t = "rounded" ∨ strBegins "rounded-" t then some "border-radius"
  else if strBegins "w-" t then some "width"
  else none

/-- Modelled from the spec (§6): keep a token unless a later token of the
same mutually-exclusive family occurs; unrecognised tokens are always kept,
preserving relative order. -/
def resolveConflicts : List String → List String
  | [] => []
  | t :: rest =>
    match twFamily t with
    | none => t :: resolveConflicts rest
    | some f =>
      if rest.any (fun u => twFamily u == some f) then resolveConflicts rest
      else t :: resolveConflicts rest

/-- `twMerge` applied to a single class string. -/
def twMergeStr (s : String) : String :=
  joinTokens (resolveConflicts (tokens s))

/-- `twMerge(a, b)`: the two class lists are joined and conflict-resolved. -/
def twMerge2 (a b : String) : String :=
  joinTokens (resolveConflicts (tokens a ++ tokens b))

/-- The class string carried by a value; class values in this model are
strings (non-string class values are outside the claims' scope). -/
def classStrOf : JVal → String
  | .str s => s
  | _ => ""

/-- `v || ''` coerced to a string, as when the source hands a possibly
missing class value to the conflict resolver. -/
def classOrEmpty (v : Option JVal) : String :=
  match v with
  | some w => if jsTruthy w then jsToString w else ""
  | none => ""

/-- `v || ''` kept as a value, as in `class: extendClass || ''`. -/
def valOrEmptyStr (v : Option JVal) : JVal :=
  match v with
  | some w => if jsTruthy w then w else .str ""
  | none => .str ""

/-- Modelled from the spec: the host framework's attribute-map combinator
used by the engine (§4.4's object branch): the result keeps `a`'s entries,
`b` wins on key collision, and the class attribute is concatenated (token
lists joined) rather than overwritten. Event-callback chaining and
style-map merging are omitted: values of this model carry neither. -/
def mergeProps (a b : Obj) : Obj :=
  b.foldl
    (fun acc kv =>
      if kv.1 = "class" then
        match aGet acc "class" with
        | some old =>
            aSet acc "class"
              (.str (joinTokens (tokens (classStrOf old) ++ tokens (classStrOf kv.2))))
        | none => aSet acc "class" kv.2
      else aSet acc kv.1 kv.2)
    a

/-- Modelled from the spec: the Attribute Normalizer (§4.1). Its
implementation (`normalizeValue` in the repository's utils module) is not
among the provided sources; only its callers are. A string becomes a
class-only map, a plain attribute map is returned unchanged, anything else
becomes the empty map. -/
def normalizeValue : JVal → Obj
  | .str s => [("class", .str s)]
  | .obj m => m
  | _ => []

/-- Modelled from the spec: class-shorthand conversion (§4.4 rule 1:
strings are treated as class shorthand and converted to `{class: ...}`).
`toClassObject` is not among the provided sources; only its callers are. -/
def toClassObject (v : JVal) : Obj := [("class", v)]

/-- `applyTailwindMerge` from `pt.ts`: run the conflict resolver over the
class attribute when one is present. -/
def applyTailwindMerge (attrs : Obj) : Obj :=
  match aGet attrs "class" with
  | some (.str s) => aSet attrs "class" (.str (twMergeStr s))
  | some _ => attrs
  | none => attrs

/-- `mergeAttrs` from `pt.ts`: merge base attributes with additional
attributes using `mergeProps` plus tailwind-merge. -/
def mergeAttrs (base additional : Obj) : Obj :=
  if isEmpty additional then base
  else applyTailwindMerge (mergeProps base additional)

/-- The result triple of `getMergeStrategy`. -/
structure MergeStrategy where
  shouldMerge : Bool
  shouldReplace : Bool
  warnBothSet : Bool

/-- `flags.$merge === true` (strict equality against boolean `true`). -/
def isTrueFlag : Option JVal → Bool
  | some (.bool true) => true
  | _ => false

/-- `getMergeStrategy` from `pt.ts`: key-level flags take priority over
top-level flags; the top-level flags are passed as the (possibly absent)
values of `$merge` and `$replace` on the external override object. -/
def getMergeStrategy (keyFlags : Obj) (topMerge topReplace : Option JVal) :
    MergeStrategy :=
  let hasMerge := isTrueFlag (aGet keyFlags "$merge")
  let hasReplace := isTrueFlag (aGet keyFlags "$replace")
  let topLevelMerge := isTrueFlag topMerge
  let topLevelReplace := isTrueFlag topReplace
  { shouldMerge := hasMerge || (topLevelMerge && !hasReplace)
    shouldReplace := hasReplace || (topLevelReplace && !hasMerge)
    warnBothSet := hasMerge && hasReplace }

/-- Diagnostic emitted when an extend chain loops back on itself. -/
def cycleMsg (key : String) : String :=
  "Circular reference detected: " ++ key

/-- Diagnostic emitted when an extend target cannot be resolved. -/
def notFoundMsg (key : String) : String :=
  "Extend target not found: " ++ key

/-- Diagnostic emitted when both merge flags are set on the same value. -/
def bothSetMsg (key : String) : String :=
  "Both merge and replace are set: " ++ key

/-- The mutable state threaded through `processTheme`'s extend resolution:
the partially filled `result` map, the `resolving` set of keys currently on
the resolution stack, and the diagnostics emitted so far. -/
structure ThemeState where
  result : TMap
  resolving : List String
  warnings : List String

/-- Step 1 of `processTheme`: normalize every entry, dropping entries that
normalize to the empty map. -/
def buildNormalized (theme : Obj) : TMap :=
  theme.foldl
    (fun acc kv =>
      let nValue := normalizeValue kv.2
      if isEmpty nValue then acc else aSet acc kv.1 nValue)
    []

/-- The recursive `resolveExtend` helper of `processTheme`, with explicit
state and explicit fuel. The outer `Option` is `none` exactly when the fuel
runs out (which never happens, see the termination theorem); the inner
`Option` is the source's `Record | null` return value. The source's
`return result[key] || null` simplifies to returning the stored map, since
every stored map is a truthy object. -/
def resolveExtendF (fuel : Nat) (normalized : TMap) (key : String)
    (s : ThemeState) : Option (ThemeState × Option Obj) :=
  match fuel with
  | 0 => none
  | fuel + 1 =>
    match aGet s.result key with
    | some v => some (s, some v)
    | none =>
      match aGet normalized key with
      | none => some (s, none)
      | some value =>
        match aGet value "extend" with
        | none =>
            some ({ s with result := aSet s.result key value }, some value)
        | some extendVal =>
          if s.resolving.contains key then
            let withoutExtend := aRemove value "extend"
            some ({ s with
                      result := aSet s.result key withoutExtend
                      warnings := s.warnings ++ [cycleMsg key] },
                  some withoutExtend)
          else
            let s1 := { s with resolving := key :: s.resolving }
            let extendClass := aGet value "class"
            let rest := aRemove (aRemove value "extend") "class"
            match resolveExtendF fuel normalized (jsToString extendVal) s1 with
            | none => none
            | some (s2, none) =>
                let res := aSet rest "class" (valOrEmptyStr extendClass)
                some ({ s2 with
                          result := aSet s2.result key res
                          warnings := s2.warnings ++ [notFoundMsg key]
                          resolving := s2.resolving.erase key },
                      some res)
            | some (s2, some base) =>
                let baseClass := aGet base "class"
                let baseRest := aRemove base "class"
                let res := aSet (aSpread baseRest rest) "class"
                    (.str (twMerge2 (classOrEmpty baseClass) (classOrEmpty extendClass)))
                some ({ s2 with
                          result := aSet s2.result key res
                          resolving := s2.resolving.erase key },
                      some res)

/-- The top-level loop of `processTheme`: resolve every normalized key in
insertion order. -/
def resolveAll (fuel : Nat) (normalized : TMap) (keys : List String)
    (s : ThemeState) : Option ThemeState :=
  match keys with
  | [] => some s
  | k :: rest =>
    match resolveExtendF fuel normalized k s with
    | none => none
    | some (s', _) => resolveAll fuel normalized rest s'

/-- `processTheme` with the fuel made explicit: `none` signals fuel
exhaustion, which the termination theorem rules out. The per-instance cache
of the source is a pure memoization and is not modelled. -/
def processThemeOpt (theme : Obj) : Option ThemeState :=
  let normalized := buildNormalized theme
  resolveAll (normalized.length + 1) normalized (normalized.map Prod.fst)
    ⟨[], [], []⟩

/-- `processTheme` together with its emitted diagnostics. -/
def processThemeW (theme : Obj) : ThemeState :=
  (processThemeOpt theme).getD ⟨[], [], []⟩

/-- `processTheme` from `pt.ts`: normalization plus extend resolution. -/
def processTheme (theme : Obj) : TMap :=
  (processThemeW theme).result

/-- The class-aware branch of `mergePt`'s loop: `mergeProps` the two
attribute maps and conflict-resolve the resulting class. -/
def mergePtClassMerge (m1 m2 : Obj) : Obj :=
  let merged := mergeProps m1 m2
  match aGet merged "class" with
  | some (.str s) => aSet merged "class" (.str (twMergeStr s))
  | _ => merged

mutual

/-- The per-key loop of `mergePt`: fold the entries of `pt2` into the
result, starting from a copy of `pt1`. -/
def mergePtGo (result : Obj) (l : Obj) : Obj :=
  match l with
  | [] => result
  | (key, val2) :: rest => mergePtGo (mergePtEntry result key val2) rest

/-- The body of `mergePt`'s loop for one key of `pt2`. The recursive call
`mergePt(normalized1, normalized2)` of the source is `mergePtGo` applied
to the two object payloads. The source normalizes string values via
`toClassObject` before the object/object test; a normalized string always
carries a `class` key, so the class-aware branch is taken for every string
value and the recursive nested merge happens only when `val2` is itself an
object — the split below makes that case analysis explicit. -/
def mergePtEntry (result : Obj) (key : String) (val2 : JVal) : Obj :=
  -- Skip if pt2 value is empty
  if ¬ jsTruthy val2 then result
  else
    match aGet result key with
    | none => aSet result key val2
    | some val1 =>
      -- Use pt2 value as-is if pt1 value is empty
      if ¬ jsTruthy val1 then aSet result key val2
      else
        let normalized1 := if isString val1 then JVal.obj (toClassObject val1) else val1
        match normalized1, val2 with
        | .obj m1, .obj m2 =>
          if aHas m1 "class" || aHas m2 "class" then
            aSet result key (.obj (mergePtClassMerge m1 m2))
          else
            aSet result key (.obj (mergePtGo m1 m2))
        | .obj m1, .str s2 =>
          -- normalized2 = toClassObject val2, which always has a class key
          aSet result key (.obj (mergePtClassMerge m1 (toClassObject (.str s2))))
        | _, _ => aSet result key val2

end

/-- `mergePt` from `pt.ts`: merge two PtSpec objects, chaining through
Vue-style attribute merging with tailwind class conflict resolution. -/
def mergePt (pt1 pt2 : Obj) : Obj := mergePtGo pt1 pt2

/-- `extractNestedPt` from `pt.ts`: a value qualifies as a nested PtSpec
only when it is a truthy plain object without a `class` attribute. -/
def extractNestedPt : Option JVal → Obj
  | none => []
  | some v =>
    if ¬ jsTruthy v then []
    else
      match v with
      | .obj m => if aHas m "class" then [] else m
      | _ => []

/-- `ptAttrs` from `pt.ts`: merge the theme's base attributes for one key
with the (attrs-derived) pt value for that key. The source inlines the
class conflict-resolution step; it is the same computation as
`applyTailwindMerge`. -/
def ptAttrs (key : String) (baseAttrs : Obj) (pt : Obj) : Obj :=
  match aGet pt key with
  | none => baseAttrs
  | some ptValue =>
    if ¬ jsTruthy ptValue then baseAttrs
    else applyTailwindMerge (mergeProps baseAttrs (normalizeValue ptValue))

/-- `ptMark` from `pt.ts`, with its diagnostics made explicit. The closure
parameters of `usePassThrough` become arguments: the processed theme
(`normalizedTheme`), the attrs-derived pt (`attrsPtV`) and the unwrapped
props pt (`propsValue`). Returns the attribute map together with the
diagnostics emitted by this call. -/
def ptMarkW (key : String) (normalizedTheme : TMap) (attrsPtV : Obj)
    (propsValue : Obj) : Obj × List String :=
  let baseAttrs := (aGet normalizedTheme key).getD []
  match aGet propsValue key with
  | none =>
      -- Key not in props: merge theme + attrs
      (ptAttrs key baseAttrs attrsPtV, [])
  | some ptValue =>
    let topMerge := aGet propsValue "$merge"
    let topReplace := aGet propsValue "$replace"
    match ptValue with
    | .obj m =>
      let st := getMergeStrategy m topMerge topReplace
      let ws := if st.warnBothSet then [bothSetMsg key] else []
      if st.shouldMerge then
        let rest := aRemove (aRemove m "$merge") "$replace"
        let themeWithAttrs := ptAttrs key baseAttrs attrsPtV
        (mergeAttrs themeWithAttrs (normalizeValue (.obj rest)), ws)
      else if st.shouldReplace then
        let rest := aRemove m "$replace"
        (normalizeValue (.obj rest), ws)
      else
        -- REPLACE (default): ignore theme
        (normalizeValue ptValue, ws)
    | _ =>
      -- Primitive value with truthy top-level $merge
      if jsTruthyOpt topMerge then
        let themeWithAttrs := ptAttrs key baseAttrs attrsPtV
        (mergeAttrs themeWithAttrs (normalizeValue ptValue), [])
      else (normalizeValue ptValue, [])

/-- `ptMark`'s returned attribute map. -/
def ptMark (key : String) (normalizedTheme : TMap) (attrsPtV : Obj)
    (propsValue : Obj) : Obj :=
  (ptMarkW key normalizedTheme attrsPtV propsValue).1

/-- The merge branch of `ptFor` before the cascade step: theme, then
attrs-derived nested pt, then the flag-stripped props value, merged
pairwise with `mergePt`. -/
def ptForMergeResult (themePt attrsPtNested rest : Obj) : Obj :=
  let r1 := themePt
  let r2 := if ¬ isEmpty attrsPtNested then mergePt r1 attrsPtNested else r1
  if ¬ isEmpty rest then mergePt r2 rest else r2

/-- `ptFor` from `pt.ts`, with its diagnostics made explicit. Note that the
source computes `getMergeStrategy(propsNested)` with the top-level flags
parameter left at its default, and that its `if (!propsNested) return
propsNested` guard never fires because `extractNestedPt` always returns an
object, which is truthy. -/
def ptForW (componentKey : String) (normalizedTheme : TMap) (attrsPtV : Obj)
    (propsValue : Obj) : Obj × List String :=
  let themePt := extractNestedPt ((aGet normalizedTheme componentKey).map JVal.obj)
  let attrsPtNested := extractNestedPt (aGet attrsPtV componentKey)
  match aGet propsValue componentKey with
  | none =>
      -- Key not in props: use theme + attrs
      (if ¬ isEmpty attrsPtNested then attrsPtNested else themePt, [])
  | some pv =>
    let propsNested := extractNestedPt (some pv)
    let st := getMergeStrategy propsNested none none
    let ws := if st.warnBothSet then [bothSetMsg componentKey] else []
    if st.shouldMerge then
      let rest := aRemove (aRemove propsNested "$merge") "$replace"
      let result := ptForMergeResult themePt attrsPtNested rest
      -- Cascade $merge to the child
      (if jsTruthyOpt (aGet result "$merge") then result
       else aSpread [("$merge", .bool true)] result, ws)
    else if st.shouldReplace then
      (aRemove propsNested "$replace", ws)
    else
      -- REPLACE (default): ignore theme
      (propsNested, ws)

/-- `ptFor`'s returned override map. -/
def ptFor (componentKey : String) (normalizedTheme : TMap) (attrsPtV : Obj)
    (propsValue : Obj) : Obj :=
  (ptForW componentKey normalizedTheme attrsPtV propsValue).1

/-- The class attribute of a resolved entry, as a string ("" if absent). -/
def resolvedClass (t : TMap) (k : String) : String :=
  match aGet t k with
  | some m => classStrOf ((aGet m "class").getD (.str ""))
  | none => ""

/-- The class attribute of an attribute map, as a string ("" if absent). -/
def classOf (m : Obj) : String :=
  classStrOf ((aGet m "class").getD (.str ""))

/-- An attribute map carries neither of the flag sentinel keys. -/
def flagFree (m : Obj) : Bool :=
  !aHas m "$merge" && !aHas m "$replace"

/-- The number of normalized catalogue keys not currently on the
resolution stack: the measure that bounds the extend-resolution depth. -/
def countU (normalized : TMap) (resolving : List String) : Nat :=
  ((normalized.map Prod.fst).filter (fun k => !resolving.contains k)).length

/-- Every attribute map stored in a resolved-definitions map is free of the
`extend` directive. -/
def ResultExtendFree (t : TMap) : Prop :=
  ∀ k v, aGet t k = some v → aGet v "extend" = none

/-! ### Basic lemmas about the ordered-map operations -/

theorem aGet_aSet {α : Type} (m : List (String × α)) (k j : String) (v : α) :
    aGet (aSet m k v) j = if j = k then some v else aGet m j := by
  induction m with
  | nil =>
      by_cases h : k = j
      · subst h; simp [aSet, aGet]
      · have h' : ¬ j = k := fun hh => h hh.symm
        simp [aSet, aGet, h, h']
  | cons hd tl ih =>
      obtain ⟨k', v'⟩ := hd
      by_cases hk : k' = k
      · subst hk
        by_cases hj : k' = j
        · subst hj; simp [aSet, aGet]
        · have hj' : ¬ j = k' := fun hh => hj hh.symm
          simp [aSet, aGet, hj, hj']
      · by_cases hj : k' = j
        · subst hj; simp [aSet, aGet, hk]
        · simp [aSet, aGet, hk, hj, ih]

theorem aGet_aRemove {α : Type} (m : List (String × α)) (k j : String) :
    aGet (aRemove m k) j = if j = k then none else aGet m j := by
  induction m with
  | nil => by_cases h : j = k <;> simp [aRemove, aGet, h]
  | cons hd tl ih =>
      obtain ⟨k', v'⟩ := hd
      by_cases hk : k' = k
      · subst hk
        by_cases hj : j = k'
        · subst hj; simp [aRemove, aGet, aRemove] at ih ⊢; simp [ih]
        · have hj' : ¬ k' = j := fun hh => hj hh.symm
          simp [aRemove, aGet, hj, hj'] at ih ⊢; simp [ih, hj]
      · by_cases hj : k' = j
        · subst hj
          have hjk : ¬ k' = k := hk
          simp [aRemove, aGet, hk, hjk]
        · simp [aRemove, aGet, hk, hj] at ih ⊢; simp [ih]

theorem aGet_aSpread_absent {α : Type} (a b : List (String × α)) (j : String)
    (hb : aGet b j = none) : aGet (aSpread a b) j = aGet a j := by
  induction b generalizing a with
  | nil => simp [aSpread]
  | cons hd tl ih =>
      obtain ⟨k', v'⟩ := hd
      have hk : ¬ k' = j := by
        intro h; simp [aGet, h] at hb
      have htl : aGet tl j = none := by
        simpa [aGet, hk] using hb
      have : aSpread a ((k', v') :: tl) = aSpread (aSet a k' v') tl := by
        simp [aSpread]
      rw [this, ih (aSet a k' v') htl, aGet_aSet,
        if_neg (fun hh : j = k' => hk hh.symm)]

theorem aGet_some_mem {α : Type} (m : List (String × α)) (k : String) (v : α)
    (h : aGet m k = some v) : k ∈ m.map Prod.fst := by
  induction m with
  | nil => simp [aGet] at h
  | cons hd tl ih =>
      obtain ⟨k', v'⟩ := hd
      by_cases hk : k' = k
      · simp [hk]
      · simp [aGet, hk] at h
        simp [ih h]

theorem aGet_mergeProps_absent (a b : Obj) (j : String)
    (ha : aGet a j = none) (hb : aGet b j = none) :
    aGet (mergeProps a b) j = none := by
  induction b generalizing a with
  | nil => simpa [mergeProps] using ha
  | cons hd tl ih =>
      obtain ⟨k', v'⟩ := hd
      have hk : ¬ k' = j := by
        intro h; simp [aGet, h] at hb
      have htl : aGet tl j = none := by
        simpa [aGet, hk] using hb
      have hstep : ∀ acc : Obj, mergeProps acc ((k', v') :: tl) =
          mergeProps
            (if k' = "class" then
              match aGet acc "class" with
              | some old =>
                  aSet acc "class"
                    (.str (joinTokens (tokens (classStrOf old) ++ tokens (classStrOf v'))))
              | none => aSet acc "class" v'
            else aSet acc k' v') tl := by
        intro acc
        by_cases hc : k' = "class" <;> simp [mergeProps, hc]
      rw [hstep a]
      apply ih
      · have hk' : ¬ j = k' := fun hh => hk hh.symm
        by_cases hc : k' = "class"
        · subst hc
          cases hcl : aGet a "class" <;> simp [hcl, aGet_aSet, hk', ha]
        · simp [hc, aGet_aSet, hk', ha]
      · exact htl

theorem length_filter_mono {α : Type} (l : List α) (p q : α → Bool)
    (h : ∀ x, q x = true → p x = true) :
    (l.filter q).length ≤ (l.filter p).length := by
  induction l with
  | nil => simp
  | cons a tl ih =>
      by_cases hq : q a = true
      · simp [List.filter, hq, h a hq]
        omega
      · simp only [Bool.not_eq_true] at hq
        by_cases hp : p a = true <;> simp [List.filter, hq, hp] <;> omega

theorem length_filter_lt_of_imp {α : Type} (l : List α) (p q : α → Bool)
    (himp : ∀ x, q x = true → p x = true) (a : α) (hmem : a ∈ l)
    (hqa : q a = false) (hpa : p a = true) :
    (l.filter q).length < (l.filter p).length := by
  induction l with
  | nil => simp at hmem
  | cons b tl ih =>
      rcases List.mem_cons.mp hmem with hb | hb
      · subst hb
        have hmono := length_filter_mono tl p q himp
        simp [List.filter_cons, hqa, hpa]
        omega
      · have ihh := ih hb
        rw [List.filter_cons, List.filter_cons]
        by_cases hqb : q b = true
        · have hpb := himp b hqb
          simp [hqb, hpb]
          omega
        · simp only [Bool.not_eq_true] at hqb
          by_cases hpb : p b = true <;> simp [hqb, hpb] <;> omega

theorem countU_cons_lt (normalized : TMap) (key : String)
    (res : List String) (hmem : key ∈ normalized.map Prod.fst)
    (hkey : res.contains key = false) :
    countU normalized (key :: res) < countU normalized res := by
  refine length_filter_lt_of_imp _ _ _ ?_ key hmem ?_ ?_
  · intro x hx
    simp at hx ⊢
    exact hx.2
  · simp
  · simp at hkey ⊢
    exact hkey

/-! ### The extend-resolution recursion: stack discipline, termination,
and the extend-free invariant -/

theorem resolveExtendF_resolving (fuel : Nat) (normalized : TMap)
    (key : String) (s s' : ThemeState) (r : Option Obj)
    (h : resolveExtendF fuel normalized key s = some (s', r)) :
    s'.resolving = s.resolving := by
  induction fuel generalizing key s s' r with
  | zero => simp [resolveExtendF] at h
  | succ fuel ih =>
      simp only [resolveExtendF] at h
      cases hres : aGet s.result key with
      | some v =>
          simp only [hres, Option.some.injEq, Prod.mk.injEq] at h
          obtain ⟨rfl, rfl⟩ := h
          rfl
      | none =>
      simp only [hres] at h
      cases hval : aGet normalized key with
      | none =>
          simp only [hval, Option.some.injEq, Prod.mk.injEq] at h
          obtain ⟨rfl, rfl⟩ := h
          rfl
      | some value =>
      simp only [hval] at h
      cases hext : aGet value "extend" with
      | none =>
          simp only [hext, Option.some.injEq, Prod.mk.injEq] at h
          obtain ⟨rfl, rfl⟩ := h
          rfl
      | some extendVal =>
      simp only [hext] at h
      by_cases hcyc : s.resolving.contains key = true
      · rw [if_pos hcyc] at h
        simp only [Option.some.injEq, Prod.mk.injEq] at h
        obtain ⟨rfl, rfl⟩ := h
        rfl
      · rw [if_neg hcyc] at h
        cases hcall : resolveExtendF fuel normalized (jsToString extendVal)
            { s with resolving := key :: s.resolving } with
        | none =>
            simp only [hcall] at h
            exact Option.noConfusion h
        | some pr =>
            obtain ⟨s2, b⟩ := pr
            have h2 := ih _ _ _ _ hcall
            simp only at h2
            cases b with
            | none =>
                simp only [hcall, Option.some.injEq, Prod.mk.injEq] at h
                obtain ⟨rfl, rfl⟩ := h
                simp only [h2, List.erase_cons_head]
            | some base =>
                simp only [hcall, Option.some.injEq, Prod.mk.injEq] at h
                obtain ⟨rfl, rfl⟩ := h
                simp only [h2, List.erase_cons_head]

theorem resolveExtendF_isSome (fuel : Nat) (normalized : TMap) (key : String)
    (s : ThemeState) (hfuel : countU normalized s.resolving < fuel) :
    (resolveExtendF fuel normalized key s).isSome = true := by
  induction fuel generalizing key s with
  | zero => exact absurd hfuel (Nat.not_lt_zero _)
  | succ fuel ih =>
      simp only [resolveExtendF]
      cases hres : aGet s.result key with
      | some v => simp
      | none =>
      simp only []
      cases hval : aGet normalized key with
      | none => simp
      | some value =>
      simp only []
      cases hext : aGet value "extend" with
      | none => simp
      | some extendVal =>
      simp only []
      by_cases hcyc : s.resolving.contains key = true
      · rw [if_pos hcyc]
        simp
      · rw [if_neg hcyc]
        have hmem : key ∈ normalized.map Prod.fst :=
          aGet_some_mem _ _ _ hval
        have hcont' : s.resolving.contains key = false := by
          simpa using hcyc
        have hlt : countU normalized (key :: s.resolving) < fuel := by
          have := countU_cons_lt normalized key s.resolving hmem hcont'
          omega
        have hin := ih (jsToString extendVal)
          { s with resolving := key :: s.resolving } hlt
        cases hcall : resolveExtendF fuel normalized (jsToString extendVal)
            { s with resolving := key :: s.resolving } with
        | none => rw [hcall] at hin; simp at hin
        | some pr =>
            obtain ⟨s2, b⟩ := pr
            cases b <;> simp

theorem resolveExtendF_extendFree (fuel : Nat) (normalized : TMap)
    (key : String) (s s' : ThemeState) (r : Option Obj)
    (h : resolveExtendF fuel normalized key s = some (s', r))
    (hs : ResultExtendFree s.result) :
    ResultExtendFree s'.result ∧ ∀ v, r = some v → aGet v "extend" = none := by
  induction fuel generalizing key s s' r with
  | zero => simp [resolveExtendF] at h
  | succ fuel ih =>
      simp only [resolveExtendF] at h
      cases hres : aGet s.result key with
      | some v =>
          simp only [hres, Option.some.injEq, Prod.mk.injEq] at h
          obtain ⟨rfl, rfl⟩ := h
          exact ⟨hs, fun w hw => by cases hw; exact hs _ _ hres⟩
      | none =>
      simp only [hres] at h
      cases hval : aGet normalized key with
      | none =>
          simp only [hval, Option.some.injEq, Prod.mk.injEq] at h
          obtain ⟨rfl, rfl⟩ := h
          exact ⟨hs, by simp⟩
      | some value =>
      simp only [hval] at h
      cases hext : aGet value "extend" with
      | none =>
          simp only [hext, Option.some.injEq, Prod.mk.injEq] at h
          obtain ⟨rfl, rfl⟩ := h
          refine ⟨?_, fun w hw => by cases hw; exact hext⟩
          intro k v hv
          simp only at hv
          rw [aGet_aSet] at hv
          by_cases hk : k = key
          · rw [if_pos hk] at hv
            cases hv
            exact hext
          · rw [if_neg hk] at hv
            exact hs _ _ hv
      | some extendVal =>
      simp only [hext] at h
      by_cases hcyc : s.resolving.contains key = true
      · rw [if_pos hcyc] at h
        simp only [Option.some.injEq, Prod.mk.injEq] at h
        obtain ⟨rfl, rfl⟩ := h
        have hwe : aGet (aRemove value "extend") "extend" = none := by
          rw [aGet_aRemove]
          simp
        refine ⟨?_, fun w hw => by cases hw; exact hwe⟩
        intro k v hv
        simp only at hv
        rw [aGet_aSet] at hv
        by_cases hk : k = key
        · rw [if_pos hk] at hv
          cases hv
          exact hwe
        · rw [if_neg hk] at hv
          exact hs _ _ hv
      · rw [if_neg hcyc] at h
        cases hcall : resolveExtendF fuel normalized (jsToString extendVal)
            { s with resolving := key :: s.resolving } with
        | none =>
            simp only [hcall] at h
            exact Option.noConfusion h
        | some pr =>
        obtain ⟨s2, b⟩ := pr
        have hih := ih _ _ _ _ hcall hs
        cases b with
        | none =>
            simp only [hcall, Option.some.injEq, Prod.mk.injEq] at h
            obtain ⟨rfl, rfl⟩ := h
            have hwe : aGet (aSet
                (aRemove (aRemove value "extend") "class") "class"
                (valOrEmptyStr (aGet value "class"))) "extend" = none := by
              rw [aGet_aSet, if_neg (by simp : ¬ ("extend" : String) = "class"),
                aGet_aRemove,
                if_neg (by simp : ¬ ("extend" : String) = "class"),
                aGet_aRemove]
              simp
            refine ⟨?_, fun w hw => by cases hw; exact hwe⟩
            intro k v hv
            simp only at hv
            rw [aGet_aSet] at hv
            by_cases hk : k = key
            · rw [if_pos hk] at hv
              cases hv
              exact hwe
            · rw [if_neg hk] at hv
              exact hih.1 _ _ hv
        | some base =>
            simp only [hcall, Option.some.injEq, Prod.mk.injEq] at h
            obtain ⟨rfl, rfl⟩ := h
            have hbase : aGet base "extend" = none := hih.2 base rfl
            have hwe : aGet (aSet
                (aSpread (aRemove base "class")
                  (aRemove (aRemove value "extend") "class")) "class"
                (.str (twMerge2 (classOrEmpty (aGet base "class"))
                  (classOrEmpty (aGet value "class"))))) "extend" = none := by
              rw [aGet_aSet, if_neg (by simp : ¬ ("extend" : String) = "class")]
              rw [aGet_aSpread_absent]
              · rw [aGet_aRemove,
                  if_neg (by simp : ¬ ("extend" : String) = "class"), hbase]
              · rw [aGet_aRemove,
                  if_neg (by simp : ¬ ("extend" : String) = "class"),
                  aGet_aRemove]
                simp
            refine ⟨?_, fun w hw => by cases hw; exact hwe⟩
            intro k v hv
            simp only at hv
            rw [aGet_aSet] at hv
            by_cases hk : k = key
            · rw [if_pos hk] at hv
              cases hv
              exact hwe
            · rw [if_neg hk] at hv
              exact hih.1 _ _ hv

theorem resolveAll_isSome (fuel : Nat) (normalized : TMap)
    (keys : List String) (s : ThemeState)
    (hfuel : countU normalized s.resolving < fuel) :
    (resolveAll fuel normalized keys s).isSome = true := by
  induction keys generalizing s with
  | nil => simp [resolveAll]
  | cons k rest ih =>
      simp only [resolveAll]
      have h1 := resolveExtendF_isSome fuel normalized k s hfuel
      cases hcall : resolveExtendF fuel normalized k s with
      | none => rw [hcall] at h1; simp at h1
      | some pr =>
          obtain ⟨s', r⟩ := pr
          simp only []
          have hres := resolveExtendF_resolving fuel normalized k s s' r hcall
          exact ih s' (by rw [hres]; exact hfuel)

theorem resolveAll_extendFree (fuel : Nat) (normalized : TMap)
    (keys : List String) (s s' : ThemeState)
    (h : resolveAll fuel normalized keys s = some s')
    (hs : ResultExtendFree s.result) : ResultExtendFree s'.result := by
  induction keys generalizing s with
  | nil =>
      simp [resolveAll] at h
      rw [← h]
      exact hs
  | cons k rest ih =>
      simp only [resolveAll] at h
      cases hcall : resolveExtendF fuel normalized k s with
      | none => rw [hcall] at h; exact Option.noConfusion h
      | some pr =>
          obtain ⟨s1, r⟩ := pr
          rw [hcall] at h
          have h2 := resolveExtendF_extendFree fuel normalized k s s1 r hcall hs
          exact ih s1 h h2.1

/-- Termination of definition processing: the fuel `normalized.length + 1`
always suffices, so the fueled resolution never fails. -/
theorem processThemeOpt_isSome (theme : Obj) :
    (processThemeOpt theme).isSome = true := by
  unfold processThemeOpt
  apply resolveAll_isSome
  have h1 : countU (buildNormalized theme) [] =
      ((buildNormalized theme).map Prod.fst).length := by
    unfold countU
    congr 1
    apply List.filter_eq_self.mpr
    intro a _
    simp
  rw [h1, List.length_map]
  omega

/-! ### Key-absence preservation through the attribute-merging pipeline -/

theorem aGet_applyTailwindMerge_ne (attrs : Obj) (j : String)
    (hj : ¬ j = "class") :
    aGet (applyTailwindMerge attrs) j = aGet attrs j := by
  unfold applyTailwindMerge
  cases hcl : aGet attrs "class" with
  | none => rfl
  | some v =>
      cases v with
      | str s =>
          simp only []
          rw [aGet_aSet, if_neg hj]
      | bool b => rfl
      | obj o => rfl

theorem aGet_mergeAttrs_absent (base additional : Obj) (j : String)
    (hj : ¬ j = "class") (hb : aGet base j = none)
    (ha : aGet additional j = none) :
    aGet (mergeAttrs base additional) j = none := by
  unfold mergeAttrs
  by_cases he : isEmpty additional = true
  · simp [he, hb]
  · simp only [he, Bool.false_eq_true, if_false]
    rw [aGet_applyTailwindMerge_ne _ _ hj]
    exact aGet_mergeProps_absent _ _ _ hb ha

theorem aGet_ptAttrs_absent (key : String) (base ap : Obj) (j : String)
    (hj : ¬ j = "class") (hb : aGet base j = none)
    (ha : ∀ v, aGet ap key = some v → aGet (normalizeValue v) j = none) :
    aGet (ptAttrs key base ap) j = none := by
  unfold ptAttrs
  cases hv : aGet ap key with
  | none => exact hb
  | some v =>
      simp only []
      by_cases ht : jsTruthy v = true
      · have hgoal : aGet (applyTailwindMerge (mergeProps base (normalizeValue v))) j
            = none := by
          rw [aGet_applyTailwindMerge_ne _ _ hj]
          exact aGet_mergeProps_absent _ _ _ hb (ha v hv)
        simpa [ht] using hgoal
      · simp only [Bool.not_eq_true] at ht
        simp [ht, hb]

theorem processTheme_extendFree (theme : Obj) :
    ResultExtendFree (processTheme theme) := by
  unfold processTheme processThemeW
  cases hopt : processThemeOpt theme with
  | none => intro k v hv; simp [aGet] at hv
  | some s =>
      simp only [Option.getD]
      unfold processThemeOpt at hopt
      exact resolveAll_extendFree _ _ _ _ _ hopt (by intro k v hv; simp [aGet] at hv)

theorem aHas_false {α : Type} (m : List (String × α)) (k : String) :
    aHas m k = false ↔ aGet m k = none := by
  unfold aHas
  cases aGet m k <;> simp

theorem extractNestedPt_obj (m : Obj) (h : aHas m "class" = false) :
    extractNestedPt (some (.obj m)) = m := by
  simp [extractNestedPt, jsTruthy, h]

/-! ### The claims -/

/-- C1: leaf replace-vs-merge — for a name present in the external
override, if neither the value nor the override object carries any
`$merge`/`$replace` flag, `ptMark` returns exactly the normalized external
value (catalogue and bag discarded); if the value carries `$merge: true`,
`ptMark` returns the class-aware merge of the catalogue+bag result with the
value's own attributes. Concretely: theme `root: "grid gap-2"` overridden
by `"flex flex-row"` gives exactly `class: "flex flex-row"`, while a
`$merge: true` override with `class: "bg-red-500"` gives a class holding
`grid`, `gap-2` and `bg-red-500`. -/
theorem c1_leaf_replace_vs_merge :
    (∀ (nt : TMap) (ap props : Obj) (key : String) (v : JVal),
        aGet props key = some v →
        aGet props "$merge" = none →
        aGet props "$replace" = none →
        (∀ m, v = JVal.obj m → aGet m "$merge" = none ∧ aGet m "$replace" = none) →
        ptMark key nt ap props = normalizeValue v) ∧
    (∀ (nt : TMap) (ap props : Obj) (key : String) (m : Obj),
        aGet props key = some (.obj m) →
        isTrueFlag (aGet m "$merge") = true →
        ptMark key nt ap props =
          mergeAttrs (ptAttrs key ((aGet nt key).getD []) ap)
            (normalizeValue (.obj (aRemove (aRemove m "$merge") "$replace")))) ∧
    ptMark "root" [("root", [("class", .str "grid gap-2")])] []
        [("root", .str "flex flex-row")] = [("class", .str "flex flex-row")] ∧
    tokens (classOf (ptMark "root" [("root", [("class", .str "grid gap-2")])] []
        [("root", .obj [("$merge", .bool true), ("class", .str "bg-red-500")])])) =
      ["grid", "gap-2", "bg-red-500"] ∧
    "grid" ∈ tokens (classOf (ptMark "root"
        [("root", [("class", .str "grid gap-2")])] []
        [("root", .obj [("$merge", .bool true), ("class", .str "bg-red-500")])])) ∧
    "gap-2" ∈ tokens (classOf (ptMark "root"
        [("root", [("class", .str "grid gap-2")])] []
        [("root", .obj [("$merge", .bool true), ("class", .str "bg-red-500")])])) ∧
    "bg-red-500" ∈ tokens (classOf (ptMark "root"
        [("root", [("class", .str "grid gap-2")])] []
        [("root", .obj [("$merge", .bool true), ("class", .str "bg-red-500")])])) := by
  refine ⟨?_, ?_, by rfl, by rfl, by decide, by decide, by decide⟩
  · intro nt ap props key v hk htm htr hflags
    unfold ptMark ptMarkW
    rw [hk]
    cases v with
    | str s => simp [htm, jsTruthyOpt]
    | bool b => simp [htm, jsTruthyOpt]
    | obj m =>
        have hm := hflags m rfl
        simp [getMergeStrategy, isTrueFlag, hm.1, hm.2, htm, htr]
  · intro nt ap props key m hk hmerge
    unfold ptMark ptMarkW
    rw [hk]
    simp [getMergeStrategy, hmerge]

/-- Witness for C1: the replace half applied to a string override with no
flags, and the merge half applied to a `$merge: true` object override. -/
theorem c1_leaf_replace_vs_merge_witness :
    ptMark "helper" [] [] [("helper", .str "text-lg")] =
      normalizeValue (.str "text-lg") ∧
    ptMark "root" [("root", [("class", .str "p-2")])] []
        [("root", .obj [("$merge", .bool true), ("class", .str "p-4")])] =
      mergeAttrs
        (ptAttrs "root"
          ((aGet [("root", [("class", JVal.str "p-2")])] "root").getD []) [])
        (normalizeValue (.obj (aRemove (aRemove
          [("$merge", JVal.bool true), ("class", JVal.str "p-4")]
          "$merge") "$replace"))) :=
  ⟨c1_leaf_replace_vs_merge.1 [] [] [("helper", .str "text-lg")] "helper"
      (.str "text-lg") (by rfl) (by rfl) (by rfl)
      (fun m hm => JVal.noConfusion hm),
   c1_leaf_replace_vs_merge.2.1 [("root", [("class", .str "p-2")])] []
      [("root", .obj [("$merge", .bool true), ("class", .str "p-4")])] "root"
      [("$merge", .bool true), ("class", .str "p-4")] (by rfl) (by rfl)⟩

/-- C2: bag-sourced overrides always merge — for a name absent from the
external override, `ptMark` returns the class-aware merge (the module's
`mergeAttrs`) of the resolved catalogue entry (or the empty map) with the
normalized bag entry (or the empty map); concretely theme
`root: "grid gap-2"` with bag override `{class: "p-4"}` and no external
override yields a class holding `grid`, `gap-2` and `p-4`. -/
theorem c2_bag_always_merges :
    (∀ (nt : TMap) (ap props : Obj) (key : String),
        aGet props key = none →
        (aGet ap key = none ∨
          ∃ v, aGet ap key = some v ∧ jsTruthy v = true ∧
            isEmpty (normalizeValue v) = false) →
        ptMark key nt ap props =
          mergeAttrs ((aGet nt key).getD [])
            ((aGet ap key).elim [] normalizeValue)) ∧
    tokens (classOf (ptMark "root" [("root", [("class", .str "grid gap-2")])]
        [("root", .obj [("class", .str "p-4")])] [])) = ["grid", "gap-2", "p-4"] ∧
    "grid" ∈ tokens (classOf (ptMark "root"
        [("root", [("class", .str "grid gap-2")])]
        [("root", .obj [("class", .str "p-4")])] [])) ∧
    "gap-2" ∈ tokens (classOf (ptMark "root"
        [("root", [("class", .str "grid gap-2")])]
        [("root", .obj [("class", .str "p-4")])] [])) ∧
    "p-4" ∈ tokens (classOf (ptMark "root"
        [("root", [("class", .str "grid gap-2")])]
        [("root", .obj [("class", .str "p-4")])] [])) := by
  refine ⟨?_, by rfl, by decide, by decide, by decide⟩
  intro nt ap props key hk hbag
  unfold ptMark ptMarkW
  rw [hk]
  rcases hbag with hnone | ⟨v, hv, ht, hne⟩
  · simp [ptAttrs, hnone, mergeAttrs, isEmpty]
  · simp [ptAttrs, hv, ht, mergeAttrs, hne]

/-- Witness for C2's general always-merge equation at the concrete
catalogue/bag pair. -/
theorem c2_bag_always_merges_witness :
    ptMark "root" [("root", [("class", .str "grid gap-2")])]
        [("root", .obj [("class", .str "p-4")])] [] =
      mergeAttrs
        ((aGet [("root", [("class", JVal.str "grid gap-2")])] "root").getD [])
        ((aGet [("root", JVal.obj [("class", JVal.str "p-4")])] "root").elim []
          normalizeValue) :=
  c2_bag_always_merges.1 [("root", [("class", .str "grid gap-2")])]
    [("root", .obj [("class", .str "p-4")])] [] "root" (by rfl)
    (Or.inr ⟨.obj [("class", .str "p-4")], by rfl, by rfl, by rfl⟩)

/-- C3: forward cascade — when `ptFor` resolves the decision to merge, the
forwarded override carries `$merge: true` (injected when the merged result
does not already carry a truthy merge flag, kept when it does); when the
decision is replace, only `$replace` is stripped and no `$merge` flag is
injected, and a grandchild applying the forwarded override resolves to
exactly the replacing class with no trace of upstream classes. The two
concrete three-level chains of the spec behave accordingly. -/
theorem c3_forward_cascade :
    (∀ (nt : TMap) (ap props : Obj) (key : String) (m : Obj),
        aGet props key = some (.obj m) →
        aHas m "class" = false →
        isTrueFlag (aGet m "$merge") = true →
        aGet (ptForMergeResult (extractNestedPt ((aGet nt key).map JVal.obj))
            (extractNestedPt (aGet ap key))
            (aRemove (aRemove m "$merge") "$replace")) "$merge" = none →
        aGet (ptFor key nt ap props) "$merge" = some (.bool true)) ∧
    (∀ (nt : TMap) (ap props : Obj) (key : String) (m : Obj),
        aGet props key = some (.obj m) →
        aHas m "class" = false →
        isTrueFlag (aGet m "$merge") = true →
        jsTruthyOpt (aGet (ptForMergeResult
            (extractNestedPt ((aGet nt key).map JVal.obj))
            (extractNestedPt (aGet ap key))
            (aRemove (aRemove m "$merge") "$replace")) "$merge") = true →
        ptFor key nt ap props =
          ptForMergeResult (extractNestedPt ((aGet nt key).map JVal.obj))
            (extractNestedPt (aGet ap key))
            (aRemove (aRemove m "$merge") "$replace")) ∧
    (∀ (nt : TMap) (ap props : Obj) (key : String) (m : Obj),
        aGet props key = some (.obj m) →
        aHas m "class" = false →
        isTrueFlag (aGet m "$merge") = false →
        isTrueFlag (aGet m "$replace") = true →
        ptFor key nt ap props = aRemove m "$replace" ∧
          (aHas m "$merge" = false →
            aHas (ptFor key nt ap props) "$merge" = false)) ∧
    ptMark "root" [("root", [("class", .str "text-red-500")])] []
        (ptFor "badge" [("badge", [("root", .str "text-red-500")])] []
          [("badge", .obj [("$replace", .bool true), ("root", .str "bg-blue-500")])]) =
      [("class", .str "bg-blue-500")] ∧
    aGet (ptFor "badge" [] []
        [("badge", .obj [("$merge", .bool true), ("root", .str "border-1")])])
      "$merge" = some (.bool true) ∧
    tokens (classOf (ptMark "root" [("root", [("class", .str "text-red-500")])] []
        (mergePt
          (ptFor "badge" [] []
            [("badge", .obj [("$merge", .bool true), ("root", .str "border-1")])])
          [("root", .str "bg-blue-500")]))) =
      ["text-red-500", "border-1", "bg-blue-500"] := by
  refine ⟨?_, ?_, ?_, by rfl, by rfl, by rfl⟩
  · intro nt ap props key m hk hclass hmerge hnone
    unfold ptFor ptForW
    rw [hk]
    simp only []
    rw [extractNestedPt_obj m hclass]
    simp only [getMergeStrategy, hmerge, Bool.true_or, if_true]
    rw [hnone]
    simp only [jsTruthyOpt, Bool.false_eq_true, if_false]
    rw [aGet_aSpread_absent _ _ _ hnone]
    rfl
  · intro nt ap props key m hk hclass hmerge htruthy
    unfold ptFor ptForW
    rw [hk]
    simp only []
    rw [extractNestedPt_obj m hclass]
    simp only [getMergeStrategy, hmerge, Bool.true_or, if_true]
    rw [htruthy]
    simp only [if_true]
  · intro nt ap props key m hk hclass hmerge hreplace
    have hmain : ptFor key nt ap props = aRemove m "$replace" := by
      unfold ptFor ptForW
      rw [hk]
      simp only []
      rw [extractNestedPt_obj m hclass]
      simp [getMergeStrategy, hmerge, hreplace]
    refine ⟨hmain, fun hnm => ?_⟩
    rw [hmain]
    rw [aHas_false] at hnm ⊢
    rw [aGet_aRemove, if_neg (by decide : ¬ ("$merge" : String) = "$replace")]
    exact hnm

/-- Witness for C3: the injection case applied to the concrete middle hop
of the merge chain, and the replace case applied to the replace hop. -/
theorem c3_forward_cascade_witness :
    aGet (ptFor "badge" [] []
        [("badge", .obj [("$merge", .bool true), ("root", .str "border-1")])])
      "$merge" = some (.bool true) ∧
    ptFor "badge" [("badge", [("root", .str "text-red-500")])] []
        [("badge", .obj [("$replace", .bool true), ("root", .str "bg-blue-500")])] =
      aRemove [("$replace", JVal.bool true), ("root", JVal.str "bg-blue-500")]
        "$replace" :=
  ⟨c3_forward_cascade.1 [] []
      [("badge", .obj [("$merge", .bool true), ("root", .str "border-1")])]
      "badge" [("$merge", .bool true), ("root", .str "border-1")]
      (by rfl) (by rfl) (by rfl) (by rfl),
   (c3_forward_cascade.2.2.1 [("badge", [("root", .str "text-red-500")])] []
      [("badge", .obj [("$replace", .bool true), ("root", .str "bg-blue-500")])]
      "badge" [("$replace", .bool true), ("root", .str "bg-blue-500")]
      (by rfl) (by rfl) (by rfl) (by rfl)).1⟩

/-- C9: termination of definition processing — for every finite catalogue,
including catalogues whose extend directives form cycles or reference
unknown targets, the extend-resolution recursion never exhausts its fuel
bound, so `processTheme` always produces a result map and never diverges
or fails. -/
theorem c9_processTheme_terminates (theme : Obj) :
    (processThemeOpt theme).isSome = true :=
  processThemeOpt_isSome theme

/-- C10: resolved definitions are extend-free — every per-name attribute
map in the result of `processTheme` lacks the `extend` key, whether the
directive was resolved, stripped on a cycle, or degraded on an unknown
target. -/
theorem c10_resolved_extend_free (theme : Obj) (k : String) (v : Obj)
    (h : aGet (processTheme theme) k = some v) : aGet v "extend" = none :=
  processTheme_extendFree theme k v h

/-- Witness for C10 at the extend-inheritance catalogue: the resolved
`inputError` entry carries no `extend` key. -/
theorem c10_resolved_extend_free_witness :
    aGet [("class", JVal.str "border px-3 border-red-500")] "extend" = none :=
  c10_resolved_extend_free
    [("input", .str "border px-3"),
     ("inputError", .obj [("extend", .str "input"), ("class", .str "border-red-500")])]
    "inputError" [("class", JVal.str "border px-3 border-red-500")] (by rfl)

/-- Counterexample to C4: when `$merge` and `$replace` are both true only
at the top level of the external override object (no per-key flags on the
value), `ptMark` applies the merge decision but emits NO diagnostic,
contradicting the claim that a diagnostic is emitted once per occurrence
at either precedence level. -/
theorem c4_conflicting_flags_counterexample :
    (ptMarkW "root" [("root", [("class", .str "grid")])] []
        [("$merge", .bool true), ("$replace", .bool true),
         ("root", .obj [("class", .str "x")])]).2 = [] ∧
    tokens (classOf (ptMarkW "root" [("root", [("class", .str "grid")])] []
        [("$merge", .bool true), ("$replace", .bool true),
         ("root", .obj [("class", .str "x")])]).1) = ["grid", "x"] :=
  ⟨rfl, rfl⟩

/-- C4 as amended: when both flags are set per-key on the external value,
`ptMark` and `ptFor` emit the conflicting-flags diagnostic exactly once for
that occurrence and apply the merge decision; when both flags resolve true
only via the top-level flags of the override object, `ptMark` still applies
merge but emits no diagnostic (and `ptFor` never consults top-level
flags). -/
theorem c4_conflicting_flags_amended :
    (∀ (nt : TMap) (ap props : Obj) (key : String) (m : Obj),
        aGet props key = some (.obj m) →
        isTrueFlag (aGet m "$merge") = true →
        isTrueFlag (aGet m "$replace") = true →
        ptMarkW key nt ap props =
          (mergeAttrs (ptAttrs key ((aGet nt key).getD []) ap)
            (normalizeValue (.obj (aRemove (aRemove m "$merge") "$replace"))),
           [bothSetMsg key])) ∧
    (∀ (nt : TMap) (ap props : Obj) (key : String) (m : Obj),
        aGet props key = some (.obj m) →
        aHas m "class" = false →
        isTrueFlag (aGet m "$merge") = true →
        isTrueFlag (aGet m "$replace") = true →
        (ptForW key nt ap props).2 = [bothSetMsg key]) ∧
    (∀ (nt : TMap) (ap props : Obj) (key : String) (m : Obj),
        aGet props key = some (.obj m) →
        aHas m "$merge" = false →
        aHas m "$replace" = false →
        isTrueFlag (aGet props "$merge") = true →
        isTrueFlag (aGet props "$replace") = true →
        ptMarkW key nt ap props =
          (mergeAttrs (ptAttrs key ((aGet nt key).getD []) ap)
            (normalizeValue (.obj (aRemove (aRemove m "$merge") "$replace"))),
           [])) := by
  refine ⟨?_, ?_, ?_⟩
  · intro nt ap props key m hk hm hr
    unfold ptMarkW
    rw [hk]
    simp [getMergeStrategy, hm, hr]
  · intro nt ap props key m hk hclass hm hr
    unfold ptForW
    rw [hk]
    simp only []
    rw [extractNestedPt_obj m hclass]
    simp [getMergeStrategy, hm, hr]
  · intro nt ap props key m hk hm hr htm htr
    have hm' : aGet m "$merge" = none := (aHas_false _ _).mp hm
    have hr' : aGet m "$replace" = none := (aHas_false _ _).mp hr
    unfold ptMarkW
    rw [hk]
    simp only [getMergeStrategy, hm', hr', htm, htr]
    simp [isTrueFlag]

/-- Witness for C4's per-key branch: both flags on the value itself yield
the diagnostic once and the merged result. -/
theorem c4_conflicting_flags_amended_witness :
    ptMarkW "root" [("root", [("class", JVal.str "grid")])] []
        [("root", .obj [("$merge", .bool true), ("$replace", .bool true),
          ("class", .str "x")])] =
      (mergeAttrs
        (ptAttrs "root"
          ((aGet [("root", [("class", JVal.str "grid")])] "root").getD []) [])
        (normalizeValue (.obj (aRemove (aRemove
          [("$merge", JVal.bool true), ("$replace", JVal.bool true),
           ("class", JVal.str "x")] "$merge") "$replace"))),
       [bothSetMsg "root"]) :=
  c4_conflicting_flags_amended.1 [("root", [("class", JVal.str "grid")])] []
    [("root", .obj [("$merge", .bool true), ("$replace", .bool true),
      ("class", .str "x")])] "root"
    [("$merge", JVal.bool true), ("$replace", JVal.bool true),
     ("class", JVal.str "x")]
    (by rfl) (by rfl) (by rfl)

/-- Counterexample to C5: an external value carrying `$merge: false` takes
the default replace path, where nothing is stripped — the returned
attribute map still contains the `$merge` sentinel key. -/
theorem c5_flag_leak_counterexample :
    aHas (ptMark "root" [] []
        [("root", .obj [("$merge", .bool false), ("class", .str "x")])])
      "$merge" = true ∧
    ptMark "root" [] []
        [("root", .obj [("$merge", .bool false), ("class", .str "x")])] =
      [("$merge", JVal.bool false), ("class", JVal.str "x")] :=
  ⟨rfl, rfl⟩

/-- C5 as amended: flag keys are removed only by the branch that consumes
them. On the default replace path (no flag keys anywhere) the result is
exactly `normalize(external value)` and is flag-free when the value is. On
the explicit `$replace: true` branch only `$replace` is stripped (a
`$merge` key on the value would survive). On the `$merge: true` branch both
flags are stripped, and the result is flag-free provided the catalogue
entry and the normalized bag entry carry no flag keys. Flag keys explicitly
set to `false` on the default path are passed through to the output. -/
theorem c5_flag_free_output_amended :
    (∀ (nt : TMap) (ap props : Obj) (key : String) (m : Obj),
        aGet props key = some (.obj m) →
        aHas m "$merge" = false →
        aHas m "$replace" = false →
        aGet props "$merge" = none →
        aGet props "$replace" = none →
        ptMark key nt ap props = normalizeValue (.obj m) ∧
          flagFree (ptMark key nt ap props) = true) ∧
    (∀ (nt : TMap) (ap props : Obj) (key : String) (m : Obj),
        aGet props key = some (.obj m) →
        isTrueFlag (aGet m "$merge") = false →
        isTrueFlag (aGet m "$replace") = true →
        ptMark key nt ap props = normalizeValue (.obj (aRemove m "$replace")) ∧
          aHas (ptMark key nt ap props) "$replace" = false ∧
          (aHas m "$merge" = false → flagFree (ptMark key nt ap props) = true)) ∧
    (∀ (nt : TMap) (ap props : Obj) (key : String) (m : Obj),
        aGet props key = some (.obj m) →
        isTrueFlag (aGet m "$merge") = true →
        flagFree ((aGet nt key).getD []) = true →
        (∀ v, aGet ap key = some v → flagFree (normalizeValue v) = true) →
        flagFree (ptMark key nt ap props) = true) := by
  refine ⟨?_, ?_, ?_⟩
  · intro nt ap props key m hk hm hr htm htr
    have hm' : aGet m "$merge" = none := (aHas_false _ _).mp hm
    have hr' : aGet m "$replace" = none := (aHas_false _ _).mp hr
    have hmain : ptMark key nt ap props = normalizeValue (.obj m) := by
      unfold ptMark ptMarkW
      rw [hk]
      simp [getMergeStrategy, isTrueFlag, hm', hr', htm, htr]
    refine ⟨hmain, ?_⟩
    rw [hmain]
    simp only [normalizeValue, flagFree, hm, hr]
    rfl
  · intro nt ap props key m hk hm hr
    have hmain : ptMark key nt ap props =
        normalizeValue (.obj (aRemove m "$replace")) := by
      unfold ptMark ptMarkW
      rw [hk]
      simp [getMergeStrategy, hm, hr]
    refine ⟨hmain, ?_, fun hnm => ?_⟩
    · rw [hmain]
      simp only [normalizeValue]
      rw [aHas_false, aGet_aRemove]
      simp
    · rw [hmain]
      simp only [normalizeValue, flagFree]
      have h1 : aHas (aRemove m "$replace") "$merge" = false := by
        rw [aHas_false, aGet_aRemove,
          if_neg (by decide : ¬ ("$merge" : String) = "$replace")]
        exact (aHas_false _ _).mp hnm
      have h2 : aHas (aRemove m "$replace") "$replace" = false := by
        rw [aHas_false, aGet_aRemove]
        simp
      rw [h1, h2]
      rfl
  · intro nt ap props key m hk hmerge hbase hbag
    have hstep : ptMark key nt ap props =
        mergeAttrs (ptAttrs key ((aGet nt key).getD []) ap)
          (normalizeValue (.obj (aRemove (aRemove m "$merge") "$replace"))) := by
      unfold ptMark ptMarkW
      rw [hk]
      simp [getMergeStrategy, hmerge]
    rw [hstep]
    rw [flagFree, Bool.and_eq_true, Bool.not_eq_true', Bool.not_eq_true'] at hbase
    obtain ⟨hbm, hbr⟩ := hbase
    have hbagm : ∀ v, aGet ap key = some v →
        aGet (normalizeValue v) "$merge" = none := by
      intro v hv
      have hvf := hbag v hv
      rw [flagFree, Bool.and_eq_true, Bool.not_eq_true', Bool.not_eq_true'] at hvf
      exact (aHas_false _ _).mp hvf.1
    have hbagr : ∀ v, aGet ap key = some v →
        aGet (normalizeValue v) "$replace" = none := by
      intro v hv
      have hvf := hbag v hv
      rw [flagFree, Bool.and_eq_true, Bool.not_eq_true', Bool.not_eq_true'] at hvf
      exact (aHas_false _ _).mp hvf.2
    have hm1 : aGet (ptAttrs key ((aGet nt key).getD []) ap) "$merge" = none :=
      aGet_ptAttrs_absent _ _ _ _ (by decide) ((aHas_false _ _).mp hbm) hbagm
    have hm2 : aGet (ptAttrs key ((aGet nt key).getD []) ap) "$replace" = none :=
      aGet_ptAttrs_absent _ _ _ _ (by decide) ((aHas_false _ _).mp hbr) hbagr
    have hr1 : aGet (normalizeValue (.obj (aRemove (aRemove m "$merge") "$replace")))
        "$merge" = none := by
      simp only [normalizeValue]
      rw [aGet_aRemove, if_neg (by decide : ¬ ("$merge" : String) = "$replace"),
        aGet_aRemove]
      simp
    have hr2 : aGet (normalizeValue (.obj (aRemove (aRemove m "$merge") "$replace")))
        "$replace" = none := by
      simp only [normalizeValue]
      rw [aGet_aRemove]
      simp
    rw [flagFree, Bool.and_eq_true, Bool.not_eq_true', Bool.not_eq_true']
    constructor
    · rw [aHas_false]
      exact aGet_mergeAttrs_absent _ _ _ (by decide) hm1 hr1
    · rw [aHas_false]
      exact aGet_mergeAttrs_absent _ _ _ (by decide) hm2 hr2

/-- Witness for C5's amended guarantee: a flag-free object override on the
default replace path comes back verbatim and flag-free. -/
theorem c5_flag_free_output_amended_witness :
    ptMark "root" [] [] [("root", .obj [("class", .str "x"), ("id", .str "r")])] =
      normalizeValue (.obj [("class", JVal.str "x"), ("id", JVal.str "r")]) ∧
    flagFree (ptMark "root" [] []
      [("root", .obj [("class", .str "x"), ("id", .str "r")])]) = true :=
  c5_flag_free_output_amended.1 [] []
    [("root", .obj [("class", .str "x"), ("id", .str "r")])] "root"
    [("class", JVal.str "x"), ("id", JVal.str "r")]
    (by rfl) (by rfl) (by rfl) (by rfl) (by rfl)

/-- Counterexample to C6: with a top-level `$merge: true` on the external
override and no per-key flag on `badge`, `ptFor` resolves `badge` to the
default replace — the catalogue's nested entry is discarded and no
`$merge` flag is cascaded — rather than to merge as the claim states. -/
theorem c6_top_level_flag_counterexample :
    ptFor "badge" [("badge", [("root", JVal.str "grid")])] []
        [("$merge", .bool true), ("badge", .obj [("root", .str "bg-blue-500")])] =
      [("root", JVal.str "bg-blue-500")] ∧
    aHas (ptFor "badge" [("badge", [("root", JVal.str "grid")])] []
        [("$merge", .bool true), ("badge", .obj [("root", .str "bg-blue-500")])])
      "$merge" = false :=
  ⟨rfl, rfl⟩

/-- C6 as amended: `ptFor` determines the merge/replace decision from the
per-key `$merge`/`$replace` flags on the value only; the top-level flags of
the external override object are ignored entirely (removing them never
changes `ptFor`'s result), so an override `{$merge: true, badge: {...}}`
with no per-key flag resolves `badge` to the default replace. -/
theorem c6_ptFor_flags_amended :
    (∀ (nt : TMap) (ap props : Obj) (key : String),
        ¬ key = "$merge" → ¬ key = "$replace" →
        ptForW key nt ap props =
          ptForW key nt ap (aRemove (aRemove props "$merge") "$replace")) ∧
    (∀ (nt : TMap) (ap props : Obj) (key : String) (m : Obj),
        aGet props key = some (.obj m) →
        aHas m "class" = false →
        aHas m "$merge" = false →
        aHas m "$replace" = false →
        ptFor key nt ap props = m) := by
  constructor
  · intro nt ap props key hkm hkr
    have h1 : aGet (aRemove (aRemove props "$merge") "$replace") key =
        aGet props key := by
      rw [aGet_aRemove, if_neg hkr, aGet_aRemove, if_neg hkm]
    unfold ptForW
    rw [h1]
  · intro nt ap props key m hk hclass hm hr
    have hm' : aGet m "$merge" = none := (aHas_false _ _).mp hm
    have hr' : aGet m "$replace" = none := (aHas_false _ _).mp hr
    unfold ptFor ptForW
    rw [hk]
    simp only []
    rw [extractNestedPt_obj m hclass]
    simp [getMergeStrategy, hm', hr', isTrueFlag]

/-- Witness for C6's amended top-level-flag independence at the concrete
counterexample input. -/
theorem c6_ptFor_flags_amended_witness :
    ptForW "badge" [("badge", [("root", JVal.str "grid")])] []
        [("$merge", .bool true), ("badge", .obj [("root", .str "bg-blue-500")])] =
      ptForW "badge" [("badge", [("root", JVal.str "grid")])] []
        (aRemove (aRemove
          [("$merge", JVal.bool true),
           ("badge", JVal.obj [("root", JVal.str "bg-blue-500")])]
          "$merge") "$replace") :=
  c6_ptFor_flags_amended.1 [("badge", [("root", JVal.str "grid")])] []
    [("$merge", .bool true), ("badge", .obj [("root", .str "bg-blue-500")])]
    "badge" (by decide) (by decide)

/-- Counterexample to C7: on the two-element cycle the entry that triggers
cycle detection does not resolve to its own class token alone — `a`
resolves to class `a-class b-class a-class` (its stripped cycle value is
overwritten when `a`'s suspended outer frame merges against the resolved
`b`), and `b` resolves to `a-class b-class`. -/
theorem c7_cycle_counterexample :
    resolvedClass (processTheme
      [("a", .obj [("extend", .str "b"), ("class", .str "a-class")]),
       ("b", .obj [("extend", .str "a"), ("class", .str "b-class")])]) "a" =
      "a-class b-class a-class" ∧
    resolvedClass (processTheme
      [("a", .obj [("extend", .str "b"), ("class", .str "a-class")]),
       ("b", .obj [("extend", .str "a"), ("class", .str "b-class")])]) "b" =
      "a-class b-class" ∧
    ¬ ("a-class b-class a-class" = "a-class") ∧
    ¬ ("a-class b-class" = "b-class") :=
  ⟨by rfl, by rfl, by decide, by decide⟩

/-- C7 as amended: resolving the cyclic catalogue terminates and emits the
cycle diagnostic exactly once, but the resolved classes also carry the
partner entry's tokens: `a` (which triggered cycle detection) resolves to
class `a-class b-class a-class` and `b` to `a-class b-class`. -/
theorem c7_cycle_amended :
    (processThemeOpt
      [("a", .obj [("extend", .str "b"), ("class", .str "a-class")]),
       ("b", .obj [("extend", .str "a"), ("class", .str "b-class")])]).isSome = true ∧
    resolvedClass (processTheme
      [("a", .obj [("extend", .str "b"), ("class", .str "a-class")]),
       ("b", .obj [("extend", .str "a"), ("class", .str "b-class")])]) "a" =
      "a-class b-class a-class" ∧
    resolvedClass (processTheme
      [("a", .obj [("extend", .str "b"), ("class", .str "a-class")]),
       ("b", .obj [("extend", .str "a"), ("class", .str "b-class")])]) "b" =
      "a-class b-class" ∧
    (processThemeW
      [("a", .obj [("extend", .str "b"), ("class", .str "a-class")]),
       ("b", .obj [("extend", .str "a"), ("class", .str "b-class")])]).warnings =
      [cycleMsg "a"] :=
  ⟨by rfl, by rfl, by rfl, by rfl⟩

/-- C8: extend inheritance — when an entry has an extend directive and the
target resolves to a (non-empty) attribute map, the entry resolves to the
target's non-class attributes spread first, then the entry's own non-class
attributes, with class set to the conflict-resolution of the target's class
followed by the entry's class; concretely, `inputError` extending `input`
yields a class containing `border`, `px-3` and `border-red-500`. -/
theorem c8_extend_inheritance :
    (∀ (fuel : Nat) (normalized : TMap) (key : String) (s : ThemeState)
        (value : Obj) (extendVal : JVal) (s2 : ThemeState) (base : Obj),
        aGet s.result key = none →
        aGet normalized key = some value →
        aGet value "extend" = some extendVal →
        s.resolving.contains key = false →
        resolveExtendF fuel normalized (jsToString extendVal)
          { s with resolving := key :: s.resolving } = some (s2, some base) →
        isEmpty base = false →
        resolveExtendF (fuel + 1) normalized key s =
          some ({ s2 with
                    result := aSet s2.result key
                      (aSet (aSpread (aRemove base "class")
                        (aRemove (aRemove value "extend") "class")) "class"
                        (.str (twMerge2 (classOrEmpty (aGet base "class"))
                          (classOrEmpty (aGet value "class")))))
                    resolving := s2.resolving.erase key },
                some (aSet (aSpread (aRemove base "class")
                    (aRemove (aRemove value "extend") "class")) "class"
                    (.str (twMerge2 (classOrEmpty (aGet base "class"))
                      (classOrEmpty (aGet value "class"))))))) ∧
    resolvedClass (processTheme
      [("input", .str "border px-3"),
       ("inputError", .obj [("extend", .str "input"), ("class", .str "border-red-500")])])
      "inputError" = "border px-3 border-red-500" ∧
    "border" ∈ tokens (resolvedClass (processTheme
      [("input", .str "border px-3"),
       ("inputError", .obj [("extend", .str "input"), ("class", .str "border-red-500")])])
      "inputError") ∧
    "px-3" ∈ tokens (resolvedClass (processTheme
      [("input", .str "border px-3"),
       ("inputError", .obj [("extend", .str "input"), ("class", .str "border-red-500")])])
      "inputError") ∧
    "border-red-500" ∈ tokens (resolvedClass (processTheme
      [("input", .str "border px-3"),
       ("inputError", .obj [("extend", .str "input"), ("class", .str "border-red-500")])])
      "inputError") := by
  refine ⟨?_, by rfl, by decide, by decide, by decide⟩
  intro fuel normalized key s value extendVal s2 base hres hval hext hcont hcall hne
  simp only [resolveExtendF, hres, hval, hext]
  rw [if_neg (by rw [hcont]; exact Bool.false_ne_true)]
  simp only [hcall]

/-- Witness for C8's general inheritance formula, instantiated at the
`input`/`inputError` catalogue from an empty resolution state. -/
theorem c8_extend_inheritance_witness :
    resolveExtendF 2
      (buildNormalized
        [("input", .str "border px-3"),
         ("inputError", .obj [("extend", .str "input"), ("class", .str "border-red-500")])])
      "inputError" ⟨[], [], []⟩ =
      some (⟨[("input", [("class", JVal.str "border px-3")]),
              ("inputError", [("class", JVal.str "border px-3 border-red-500")])],
             [], []⟩,
            some [("class", JVal.str "border px-3 border-red-500")]) :=
  c8_extend_inheritance.1 1
    (buildNormalized
      [("input", .str "border px-3"),
       ("inputError", .obj [("extend", .str "input"), ("class", .str "border-red-500")])])
    "inputError" ⟨[], [], []⟩
    [("extend", JVal.str "input"), ("class", JVal.str "border-red-500")]
    (.str "input")
    ⟨[("input", [("class", JVal.str "border px-3")])], ["inputError"], []⟩
    [("class", JVal.str "border px-3")]
    (by rfl) (by rfl) (by rfl) (by rfl) (by rfl) (by rfl)

end VuePt
